import Mathlib

/-!
# Verification of the aichat document discovery and extraction subsystem

A shallow embedding of `src/rag/loader.rs`: glob-pattern decomposition
(`parse_glob`), extension filtering (`is_valid_extension`), recursive
directory enumeration (`list_files`), external tool invocation
(`run_external_tool`) and format dispatch (`load`).

Rust strings are modelled as `List Char` (the sequence of characters;
all string offsets of the source are character offsets here).  Fallible
Rust functions returning `anyhow::Result` are modelled with `Except`.
-/

/-- The character `\x7b` (opening curly brace), named to keep literals readable. -/
def openBrace : Char := '\x7b'

/-- The character `\x7d` (closing curly brace). -/
def closeBrace : Char := '\x7d'

/-- The character `\x27` (single quote), used in the Invalid path error
message of `parse_glob`. -/
def squote : Char := '\x27'

/-- Rust `str::find(pattern)` for a substring pattern: the first index at
which `m` occurs in the haystack, or `none`. -/
def findSubstr (m : List Char) : List Char → Option Nat
  | [] => if m.isPrefixOf ([] : List Char) then some 0 else none
  | c :: t =>
    if m.isPrefixOf (c :: t) then some 0
    else (findSubstr m t).map (· + 1)

/-- Rust `str::find(char)`: the first index of character `c`, or `none`. -/
def findChar (c : Char) : List Char → Option Nat
  | [] => none
  | a :: t => if a = c then some 0 else (findChar c t).map (· + 1)

/-- Rust `str::split(char)` collected into a vector: splits on every
occurrence of `c`; the empty string yields one empty piece, matching the
Rust split iterator on the empty string. -/
def splitOnChar (c : Char) : List Char → List (List Char)
  | [] => [[]]
  | a :: t =>
    let r := splitOnChar c t
    if a = c then [] :: r
    else
      match r with
      | h :: hs => (a :: h) :: hs
      | [] => [[a]]

/-- Rust `str::starts_with(char)`. -/
def starts_with (l : List Char) (c : Char) : Bool :=
  match l with
  | [] => false
  | a :: _ => a = c

/-- Rust `str::ends_with(char)`. -/
def ends_with (l : List Char) (c : Char) : Bool :=
  match l.getLast? with
  | some a => a = c
  | none => false

/-- The forward-slash recursive-match marker `/**/*.` of `parse_glob`. -/
def marker1 : List Char := "/**/*.".data

/-- The backslash recursive-match marker `\**\*.` of `parse_glob`
(the Rust raw string `r"\**\*."`). -/
def marker2 : List Char := "\\**\\*.".data

/-- The marker search of `parse_glob` (loader.rs line 47):
`path_str.find("/**/*.").or_else(|| path_str.find(r"\**\*."))`. -/
def findMarker (p : List Char) : Option Nat :=
  (findSubstr marker1 p).orElse (fun _ => findSubstr marker2 p)

/-- The message of the Invalid path bail in `parse_glob`, which embeds
the offending input between single quotes. -/
def invalidPathMsg (p : List Char) : List Char :=
  "Invalid path ".data ++ [squote] ++ p ++ [squote]

/-- Embedding of `parse_glob` (loader.rs lines 46-69).  Splits a path
string containing the recursive-match marker into a base path and an
extension list; errors are the `anyhow` message strings. -/
def parse_glob (path_str : List Char) :
    Except (List Char) (List Char × List (List Char)) :=
  match findMarker path_str with
  | some start =>
    let base_path := path_str.take start
    match findChar closeBrace (path_str.drop start) with
    | some curly_brace_end =>
      let e := start + curly_brace_end
      let extensions_str := (path_str.drop (start + 6)).take (e + 1 - (start + 6))
      if starts_with extensions_str openBrace && ends_with extensions_str closeBrace then
        .ok (base_path, splitOnChar ',' ((extensions_str.drop 1).dropLast))
      else
        .error (invalidPathMsg path_str)
    | none =>
      let extensions_str := path_str.drop (start + 6)
      .ok (base_path, [extensions_str])
  | none => .ok (path_str, [])

instance {ε α : Type} [DecidableEq ε] [DecidableEq α] : DecidableEq (Except ε α)
  | .ok a, .ok b =>
    if h : a = b then .isTrue (by rw [h])
    else .isFalse (by intro hh; injection hh; contradiction)
  | .error a, .error b =>
    if h : a = b then .isTrue (by rw [h])
    else .isFalse (by intro hh; injection hh; contradiction)
  | .ok _, .error _ => .isFalse (by intro h; cases h)
  | .error _, .ok _ => .isFalse (by intro h; cases h)

/-!
## Filesystem model and the Recursive File Enumerator

A directory tree is modelled by `Entry`: a regular file, a directory with
an ordered list of children (the order the underlying directory read
reports them), or `special` — a path that exists but is neither a regular
file nor a directory (socket, device node, broken symlink).  A root path
that does not exist is modelled by `none : Option Entry`.  Each node
carries its display string (`path.display().to_string()`).
-/

/-- A filesystem node as observed by `list_files`: regular file, directory
with children in directory-read order, or an existing node that is neither
(`is_file` and `is_dir` both false). -/
inductive Entry where
  | file (path : List Char)
  | dir (path : List Char) (entries : List Entry)
  | special (path : List Char)

/-- The errors `list_files` can raise, kept structured: the Not found
bail and the Not a directory bail (the Rust messages embed the
debug-printed path). -/
inductive FsError where
  | notFound
  | notADirectory (path : List Char)
deriving DecidableEq

/-- Rust `Path::file_name` for an ordinary slash-separated file path:
the component after the last `/`. -/
def file_name (p : List Char) : List Char :=
  (splitOnChar '/' p).getLastD []

/-- Rust `Path::extension` for an ordinary file path: the part of the file
name after its last `.`; `none` when the file name has no `.`, or when its
only `.` is the leading character (hidden files such as `.gitignore`). -/
def extension (p : List Char) : Option (List Char) :=
  let name := file_name p
  match findChar '.' name.reverse with
  | none => none
  | some rIdx =>
    let i := name.length - 1 - rIdx
    if i = 0 then none else some (name.drop (i + 1))

/-- Embedding of `is_valid_extension` (loader.rs lines 105-115): accept
unconditionally when the filter is absent or empty, otherwise accept
exactly when the path has an extension that is a member of the filter.
`to_string_lossy` is the identity in the character model. -/
def is_valid_extension (suffixes : Option (List (List Char))) (path : List Char) : Bool :=
  match suffixes with
  | some suffixes =>
    if ¬ suffixes.isEmpty then
      match extension path with
      | some ext => suffixes.contains ext
      | none => false
    else
      true
  | none => true

/-- Embedding of `add_file` (loader.rs lines 99-103): push the display
string when the extension filter accepts the path. -/
def add_file (files : List (List Char)) (suffixes : Option (List (List Char)))
    (path : List Char) : List (List Char) :=
  if is_valid_extension suffixes path then files ++ [path] else files

/-- The `while let Some(entry) = reader.next_entry()` loop of `list_files`
(loader.rs lines 88-95): files are pushed through `add_file`, directories
are recursed into (re-entering `list_files`, whose directory branch is this
loop again), anything else is skipped silently. -/
def list_dir (suffixes : Option (List (List Char))) :
    List (List Char) → List Entry → Except FsError (List (List Char))
  | files, [] => .ok files
  | files, .file p :: rest => list_dir suffixes (add_file files suffixes p) rest
  | files, .dir _ entries :: rest =>
    match list_dir suffixes files entries with
    | .ok files2 => list_dir suffixes files2 rest
    | .error e => .error e
  | files, .special _ :: rest => list_dir suffixes files rest

/-- Embedding of `list_files` (loader.rs lines 71-97).  The mutable
`files: &mut Vec<String>` argument is threaded explicitly; a successful
call returns the grown vector.  `none` models a root that fails the
`exists()` check; an existing root that is neither file nor directory is
`Entry.special`. -/
def list_files (files : List (List Char)) (entry_path : Option Entry)
    (suffixes : Option (List (List Char))) : Except FsError (List (List Char)) :=
  match entry_path with
  | none => .error .notFound
  | some (.file p) => .ok (add_file files suffixes p)
  | some (.dir _ entries) => list_dir suffixes files entries
  | some (.special p) => .error (.notADirectory p)

/-- Specification-side description of the enumeration (from the words of
the spec): the qualifying file paths of a child list in depth-first order —
per-directory entries in directory-read order, the subtree of a
subdirectory appearing contiguously in place of the subdirectory. -/
def dfs_files (suffixes : Option (List (List Char))) : List Entry → List (List Char)
  | [] => []
  | .file p :: rest =>
    (if is_valid_extension suffixes p then [p] else []) ++ dfs_files suffixes rest
  | .dir _ entries :: rest => dfs_files suffixes entries ++ dfs_files suffixes rest
  | .special _ :: rest => dfs_files suffixes rest

/-- Specification-side qualifying paths of a whole subtree rooted at one
existing node. -/
def dfs_entry (suffixes : Option (List (List Char))) : Entry → List (List Char)
  | .file p => if is_valid_extension suffixes p then [p] else []
  | .dir _ entries => dfs_files suffixes entries
  | .special _ => []

/-- The example tree of the spec: `root` containing `a.md`, `b.txt` and
`sub/c.md`. -/
def exampleTree : Entry :=
  .dir "root".data
    [.file "root/a.md".data, .file "root/b.txt".data,
     .dir "root/sub".data [.file "root/sub/c.md".data]]

/-!
## Format Dispatcher and External Tool Gateway

`RagDocument` and `run_command_with_output` are used by loader.rs but
defined elsewhere in the repository; they are modelled from the spec.
-/

/-- Modelled from the spec: `RagDocument` (its Rust definition is not
under `src/`) is "a single unit of extracted text content plus optional
metadata (source identifier)". -/
structure RagDocument where
  page_content : List Char
  metadata : Option (List Char)
deriving DecidableEq

/-- Modelled from the spec: `RagDocument::new(contents)` wraps the
extracted text verbatim, with no metadata and no transformation. -/
def RagDocument.new (content : List Char) : RagDocument :=
  { page_content := content, metadata := none }

/-- The process environment the loader runs in.  `exist_pandoc` and
`exist_pdftotext` model the `lazy_static` cached `EXIST_PANDOC` /
`EXIST_PDFTOTEXT` flags (computed once per process, constant thereafter);
`read_to_string` models `std::fs::read_to_string`.
`run_command_with_output` is modelled from the spec (its definition is
not under `src/`): it spawns a program and reports (exit status is zero,
standard output decoded lossily to text, standard error likewise). -/
structure Env where
  exist_pandoc : Bool
  exist_pdftotext : Bool
  read_to_string : List Char → Except (List Char) (List Char)
  run_command_with_output :
    List Char → List (List Char) → Except (List Char) (Bool × List Char × List Char)

/-- The generic non-zero-exit message: the backquoted command name
followed by the words exited with non-zero. -/
def nonZeroExitMsg (cmd : List Char) : List Char :=
  "`".data ++ cmd ++ "` exited with non-zero.".data

/-- Embedding of `run_external_tool` (loader.rs lines 117-128). -/
def run_external_tool (env : Env) (cmd : List Char) (args : List (List Char)) :
    Except (List Char) (List Char) :=
  match env.run_command_with_output cmd args with
  | .error e => .error e
  | .ok (success, stdout, stderr) =>
    if success then .ok stdout
    else .error (if ¬ stderr.isEmpty then stderr else nonZeroExitMsg cmd)

/-- Embedding of `load_plain` (loader.rs lines 22-26). -/
def load_plain (env : Env) (path : List Char) : Except (List Char) (List RagDocument) :=
  match env.read_to_string path with
  | .ok contents => .ok [RagDocument.new contents]
  | .error e => .error e

/-- The `bail!` message of `load_with_pdftotext` when the tool is absent. -/
def pdftotextMissingMsg : List Char :=
  "Need to install pdftotext (part of the poppler package) to load the file.".data

/-- The `bail!` message of `load_with_pandoc` when the tool is absent. -/
def pandocMissingMsg : List Char :=
  "Need to install pandoc to load the file.".data

/-- Embedding of `load_with_pdftotext` (loader.rs lines 28-35). -/
def load_with_pdftotext (env : Env) (path : List Char) :
    Except (List Char) (List RagDocument) :=
  if ¬ env.exist_pdftotext then .error pdftotextMissingMsg
  else
    match run_external_tool env "pdftotext".data [path, "-".data] with
    | .ok contents => .ok [RagDocument.new contents]
    | .error e => .error e

/-- Embedding of `load_with_pandoc` (loader.rs lines 37-44). -/
def load_with_pandoc (env : Env) (path : List Char) :
    Except (List Char) (List RagDocument) :=
  if ¬ env.exist_pandoc then .error pandocMissingMsg
  else
    match run_external_tool env "pandoc".data ["--to".data, "plain".data, path] with
    | .ok contents => .ok [RagDocument.new contents]
    | .error e => .error e

/-- Embedding of `load` (loader.rs lines 14-20): exact, case-sensitive
dispatch on the extension string. -/
def load (env : Env) (path : List Char) (extension : List Char) :
    Except (List Char) (List RagDocument) :=
  if extension = "docx".data ∨ extension = "epub".data then load_with_pandoc env path
  else if extension = "pdf".data then load_with_pdftotext env path
  else load_plain env path

/-- Fixture environment: both tools present, file reads return `hello`,
tool runs succeed with stdout `out`. -/
def envRunOk : Env :=
  { exist_pandoc := true, exist_pdftotext := true,
    read_to_string := fun _ => .ok "hello".data,
    run_command_with_output := fun _ _ => .ok (true, "out".data, []) }

/-- Fixture environment: tool runs exit non-zero with stderr `boom`. -/
def envRunFail : Env :=
  { exist_pandoc := true, exist_pdftotext := true,
    read_to_string := fun _ => .ok "hello".data,
    run_command_with_output := fun _ _ => .ok (false, [], "boom".data) }

/-- Fixture environment: neither converter tool is installed. -/
def envNoTools : Env :=
  { exist_pandoc := false, exist_pdftotext := false,
    read_to_string := fun _ => .ok "hello".data,
    run_command_with_output := fun _ _ => .ok (true, "out".data, []) }

/-!
## Theorems

Concrete evaluation checks, followed by the claim theorems.
-/

example : parse_glob "dir".data = .ok ("dir".data, []) := by decide
example : parse_glob "dir/file.md".data = .ok ("dir/file.md".data, []) := by decide
example : parse_glob "dir/**/*.md".data = .ok ("dir".data, ["md".data]) := by decide
example :
    parse_glob "dir/**/*.\x7bmd,txt\x7d".data =
      .ok ("dir".data, ["md".data, "txt".data]) := by decide
example :
    parse_glob "C:\\dir\\**\\*.\x7bmd,txt\x7d".data =
      .ok ("C:\\dir".data, ["md".data, "txt".data]) := by decide
example :
    parse_glob "dir/**/*.\x7bmd,txt".data =
      .ok ("dir".data, ["\x7bmd,txt".data]) := by decide
example :
    parse_glob "dir/**/*.x\x7d".data =
      .error (invalidPathMsg "dir/**/*.x\x7d".data) := by decide

/-- The directory case of the loop is literally the recursive `list_files`
call of loader.rs line 93: both sides reduce to the same traversal. -/
theorem list_dir_cons_dir (suffixes : Option (List (List Char)))
    (files : List (List Char)) (q : List Char) (entries rest : List Entry) :
    list_dir suffixes files (.dir q entries :: rest) =
      match list_files files (some (.dir q entries)) suffixes with
      | .ok files2 => list_dir suffixes files2 rest
      | .error e => .error e := by
  rw [list_dir, list_files]

/-!
## Glob Decomposer lemmas
-/

/-- A successful substring search reports a position where the pattern is a
prefix of the remaining haystack. -/
theorem findSubstr_pos {m p : List Char} {s : Nat} (h : findSubstr m p = some s) :
    m <+: p.drop s := by
  induction p generalizing s with
  | nil =>
    rw [findSubstr] at h
    by_cases hm : List.isPrefixOf m ([] : List Char)
    · rw [if_pos hm] at h
      obtain rfl : (0 : Nat) = s := Option.some.inj h
      simpa using List.isPrefixOf_iff_prefix.mp hm
    · rw [if_neg hm] at h
      exact absurd h (by simp)
  | cons c t ih =>
    rw [findSubstr] at h
    by_cases hm : List.isPrefixOf m (c :: t)
    · rw [if_pos hm] at h
      obtain rfl : (0 : Nat) = s := Option.some.inj h
      simpa using List.isPrefixOf_iff_prefix.mp hm
    · rw [if_neg hm] at h
      obtain ⟨s0, h0, rfl⟩ := Option.map_eq_some'.mp h
      simpa using ih h0

/-- A character search over a list that misses returns `none`. -/
theorem findChar_eq_none {c : Char} {l : List Char} (h : c ∉ l) : findChar c l = none := by
  induction l with
  | nil => rfl
  | cons a t ih =>
    simp only [List.mem_cons, not_or] at h
    rw [findChar, if_neg (fun hh => h.1 hh.symm), ih h.2]
    rfl

/-- First occurrence of `c` right after a `c`-free block. -/
theorem findChar_append_cons {c : Char} {l r : List Char} (h : c ∉ l) :
    findChar c (l ++ c :: r) = some l.length := by
  induction l with
  | nil => simp [findChar]
  | cons a t ih =>
    simp only [List.mem_cons, not_or] at h
    rw [List.cons_append, findChar, if_neg (fun hh => h.1 hh.symm), ih h.2]
    simp

/-- A successful marker search reports a position carrying one of the two
markers. -/
theorem findMarker_pos {p : List Char} {s : Nat} (h : findMarker p = some s) :
    marker1 <+: p.drop s ∨ marker2 <+: p.drop s := by
  rw [findMarker] at h
  cases h1 : findSubstr marker1 p with
  | some s1 =>
    rw [h1] at h
    simp only [Option.orElse] at h
    exact Or.inl (findSubstr_pos (h1.trans h))
  | none =>
    rw [h1] at h
    simp only [Option.orElse] at h
    exact Or.inr (findSubstr_pos h)

/-- C9: for every input string that does not contain the recursive-match
marker — neither `/**/*.` nor `\**\*.` occurs as a substring — `parse_glob`
succeeds and returns the input unchanged as base path with an empty
extension list. -/
theorem parse_glob_no_marker (p : List Char)
    (h1 : ¬ marker1 <:+: p) (h2 : ¬ marker2 <:+: p) :
    parse_glob p = .ok (p, []) := by
  have hfind : findMarker p = none := by
    cases h : findMarker p with
    | none => rfl
    | some s =>
      rcases findMarker_pos h with hpre | hpre
      · exact absurd (hpre.isInfix.trans (List.drop_suffix s p).isInfix) h1
      · exact absurd (hpre.isInfix.trans (List.drop_suffix s p).isInfix) h2
  rw [parse_glob, hfind]

/-- Witness for C9 at the concrete input `dir/file.md`. -/
theorem parse_glob_no_marker_witness :
    parse_glob "dir/file.md".data = .ok ("dir/file.md".data, []) :=
  parse_glob_no_marker "dir/file.md".data (by decide) (by decide)

/-- Helper for the no-closing-brace fallback: with a marker at `start` and
no `\x7d` after it, `parse_glob` takes the single-literal branch. -/
theorem parse_glob_fallback_aux {p mk : List Char} {start : Nat}
    (hmk : mk = marker1 ∨ mk = marker2) (hfind : findMarker p = some start)
    (hpre : mk <+: p.drop start) (hnot : closeBrace ∉ p.drop (start + 6)) :
    parse_glob p = .ok (p.take start, [p.drop (start + 6)]) := by
  have hlen : mk.length = 6 := by rcases hmk with rfl | rfl <;> rfl
  have hnc : closeBrace ∉ mk := by rcases hmk with rfl | rfl <;> decide
  obtain ⟨t, ht⟩ := hpre
  have h6 : (mk ++ t).drop mk.length = t := List.drop_left mk t
  rw [ht] at h6
  have hdd : p.drop (start + 6) = t := by
    rw [← h6, hlen, List.drop_drop]
  have hnone : findChar closeBrace (p.drop start) = none := by
    rw [← ht]
    exact findChar_eq_none (by
      intro hmem
      rcases List.mem_append.mp hmem with hm | hm
      · exact hnc hm
      · exact hnot (hdd ▸ hm))
  simp only [parse_glob, hfind, hnone]

/-- C3: with the marker present, a closing brace after the marker whose
delimited segment is not brace-wrapped makes `parse_glob` fail with the
`Invalid path` message containing the offending input; with no closing
brace anywhere after the marker (an opening brace alone does not matter),
`parse_glob` instead succeeds with exactly one literal extension — the
whole remainder after the marker. -/
theorem parse_glob_invalid_and_fallback :
    (∀ (p : List Char) (start j : Nat),
      findMarker p = some start →
      findChar closeBrace (p.drop start) = some j →
      (starts_with ((p.drop (start + 6)).take (start + j + 1 - (start + 6))) openBrace &&
       ends_with ((p.drop (start + 6)).take (start + j + 1 - (start + 6))) closeBrace) = false →
      parse_glob p = .error (invalidPathMsg p) ∧ p <:+: invalidPathMsg p) ∧
    (∀ (p : List Char) (start : Nat),
      findMarker p = some start →
      closeBrace ∉ p.drop (start + 6) →
      parse_glob p = .ok (p.take start, [p.drop (start + 6)])) := by
  constructor
  · intro p start j hfind hchar hcond
    refine ⟨?_, ⟨"Invalid path ".data ++ [squote], [squote], by simp [invalidPathMsg]⟩⟩
    rw [show start + j + 1 - (start + 6) = start + j - (start + 5) from by omega] at hcond
    simp only [parse_glob, hfind, hchar]
    rw [if_neg (by simp [hcond])]
  · intro p start hfind hnot
    rcases findMarker_pos hfind with hpre | hpre
    · exact parse_glob_fallback_aux (Or.inl rfl) hfind hpre hnot
    · exact parse_glob_fallback_aux (Or.inr rfl) hfind hpre hnot

/-- Witness for C3: the invalid branch at `dir/**/*.x\x7d` and the
fallback branch at `dir/**/*.\x7bmd,txt`. -/
theorem parse_glob_invalid_and_fallback_witness :
    (parse_glob "dir/**/*.x\x7d".data = .error (invalidPathMsg "dir/**/*.x\x7d".data) ∧
      "dir/**/*.x\x7d".data <:+: invalidPathMsg "dir/**/*.x\x7d".data) ∧
    parse_glob "dir/**/*.\x7bmd,txt".data =
      .ok ("dir/**/*.\x7bmd,txt".data.take 3, ["dir/**/*.\x7bmd,txt".data.drop 9]) :=
  ⟨parse_glob_invalid_and_fallback.1 "dir/**/*.x\x7d".data 3 7 (by decide) (by decide) (by decide),
   parse_glob_invalid_and_fallback.2 "dir/**/*.\x7bmd,txt".data 3 (by decide) (by decide)⟩

/-- `starts_with` holds at a matching head. -/
theorem starts_with_cons (a : Char) (l : List Char) : starts_with (a :: l) a = true := by
  simp [starts_with]

/-- `ends_with` holds at a matching final element. -/
theorem ends_with_concat (a : Char) (l : List Char) : ends_with (l ++ [a]) a = true := by
  simp [ends_with, List.getLast?_concat]

/-- A segment of the shape `\x7b…\x7d` passes the brace-wrapped test. -/
theorem brace_wrap_cond (inner2 : List Char) :
    (starts_with (openBrace :: (inner2 ++ [closeBrace])) openBrace &&
      ends_with (openBrace :: (inner2 ++ [closeBrace])) closeBrace) = true := by
  have h2 : ends_with (openBrace :: (inner2 ++ [closeBrace])) closeBrace = true := by
    rw [← List.cons_append]
    exact ends_with_concat closeBrace (openBrace :: inner2)
  simp only [starts_with_cons, h2, Bool.and_self]

/-- C2: at a marker occurrence followed by a brace-wrapped extension set,
`parse_glob` returns the text before the marker as base path and the
comma-split inner content of the braces as extension list; plus the three
concrete decompositions of the spec. -/
theorem parse_glob_brace_decomposition :
    (∀ (base inner rest mk : List Char),
      mk = marker1 ∨ mk = marker2 →
      findMarker (base ++ (mk ++ (openBrace :: (inner ++ closeBrace :: rest)))) =
        some base.length →
      closeBrace ∉ inner →
      parse_glob (base ++ (mk ++ (openBrace :: (inner ++ closeBrace :: rest)))) =
        .ok (base, splitOnChar ',' inner)) ∧
    parse_glob "dir/**/*.md".data = .ok ("dir".data, ["md".data]) ∧
    parse_glob "dir/**/*.\x7bmd,txt\x7d".data = .ok ("dir".data, ["md".data, "txt".data]) ∧
    parse_glob "C:\\dir\\**\\*.\x7bmd,txt\x7d".data =
      .ok ("C:\\dir".data, ["md".data, "txt".data]) := by
  refine ⟨?_, by decide, by decide, by decide⟩
  intro base inner rest mk hmk hfind hinner
  have hlen : mk.length = 6 := by rcases hmk with rfl | rfl <;> rfl
  have hnc : closeBrace ∉ mk := by rcases hmk with rfl | rfl <;> decide
  have hdrop : (base ++ (mk ++ (openBrace :: (inner ++ closeBrace :: rest)))).drop base.length
      = mk ++ (openBrace :: (inner ++ closeBrace :: rest)) := List.drop_left base _
  have hfc : findChar closeBrace
      ((base ++ (mk ++ (openBrace :: (inner ++ closeBrace :: rest)))).drop base.length)
      = some (inner.length + 7) := by
    rw [hdrop,
      show mk ++ (openBrace :: (inner ++ closeBrace :: rest))
          = (mk ++ openBrace :: inner) ++ closeBrace :: rest from by simp,
      findChar_append_cons (by
        intro hmem
        rcases List.mem_append.mp hmem with hm | hm
        · exact hnc hm
        · rcases List.mem_cons.mp hm with hm1 | hm1
          · exact absurd hm1 (by decide)
          · exact hinner hm1)]
    congr 1
    simp only [List.length_append, List.length_cons, hlen]
    omega
  have hdrop6 : (base ++ (mk ++ (openBrace :: (inner ++ closeBrace :: rest)))).drop
        (base.length + 6)
      = openBrace :: (inner ++ closeBrace :: rest) := by
    rw [show base ++ (mk ++ (openBrace :: (inner ++ closeBrace :: rest)))
        = (base ++ mk) ++ (openBrace :: (inner ++ closeBrace :: rest)) from
        (List.append_assoc base mk _).symm,
      show base.length + 6 = (base ++ mk).length from by simp [hlen],
      List.drop_left]
  have htake : (openBrace :: (inner ++ closeBrace :: rest)).take (inner.length + 2)
      = openBrace :: (inner ++ [closeBrace]) := by
    rw [show inner.length + 2 = (inner.length + 1) + 1 from by omega, List.take_succ_cons,
      List.take_append_eq_append_take,
      List.take_of_length_le (by omega)]
    simp
  simp only [parse_glob, hfind, hfc]
  rw [show base.length + (inner.length + 7) + 1 - (base.length + 6) = inner.length + 2 from by
      omega,
    hdrop6, htake, brace_wrap_cond]
  simp [List.take_left, List.dropLast_concat]

/-- Witness for C2 at `dir` ++ `/**/*.` ++ `\x7bmd,txt\x7d`. -/
theorem parse_glob_brace_decomposition_witness :
    parse_glob ("dir".data ++ (marker1 ++ (openBrace :: ("md,txt".data ++ closeBrace :: [])))) =
      .ok ("dir".data, splitOnChar ',' "md,txt".data) :=
  parse_glob_brace_decomposition.1 "dir".data "md,txt".data [] marker1 (Or.inl rfl)
    (by decide) (by decide)

/-!
## Recursive File Enumerator lemmas
-/

/-- The directory loop never fails and appends exactly the depth-first
qualifying paths after the already-collected prefix. -/
theorem list_dir_ok (suffixes : Option (List (List Char))) (files : List (List Char))
    (cs : List Entry) :
    list_dir suffixes files cs = .ok (files ++ dfs_files suffixes cs) := by
  match cs with
  | [] => simp [list_dir, dfs_files]
  | .file p :: rest =>
    simp only [list_dir, dfs_files]
    rw [list_dir_ok suffixes (add_file files suffixes p) rest]
    unfold add_file
    by_cases h : is_valid_extension suffixes p <;> simp [h]
  | .dir q entries :: rest =>
    simp only [list_dir, dfs_files]
    rw [list_dir_ok suffixes files entries]
    exact (list_dir_ok suffixes (files ++ dfs_files suffixes entries) rest).trans
      (by simp)
  | .special p :: rest =>
    simp only [list_dir, dfs_files]
    exact list_dir_ok suffixes files rest
termination_by sizeOf cs

/-- C1: a successful `list_files` call returns the prior contents as an
unchanged prefix followed by exactly the qualifying file paths of the
subtree in depth-first traversal order (`dfs_entry`); on the example
tree of the spec with filter `md` this is `root/a.md` then `root/sub/c.md`. -/
theorem list_files_dfs_append :
    (∀ (files : List (List Char)) (e : Entry) (suffixes : Option (List (List Char)))
       (res : List (List Char)),
      list_files files (some e) suffixes = .ok res →
      res = files ++ dfs_entry suffixes e) ∧
    list_files [] (some exampleTree) (some ["md".data]) =
      .ok ["root/a.md".data, "root/sub/c.md".data] := by
  constructor
  · intro files e suffixes res h
    cases e with
    | file p =>
      rw [list_files] at h
      obtain rfl := (Except.ok.inj h).symm
      unfold add_file dfs_entry
      by_cases hv : is_valid_extension suffixes p <;> simp [hv]
    | dir q entries =>
      rw [list_files, list_dir_ok] at h
      obtain rfl := (Except.ok.inj h).symm
      rfl
    | special p => exact absurd h (by rw [list_files]; intro hh; cases hh)
  · simp [exampleTree, list_files, list_dir, add_file, is_valid_extension, extension,
      file_name, splitOnChar, findChar]

/-- Witness for C1: the universal statement applied to the example tree. -/
theorem list_files_dfs_append_witness :
    ["root/a.md".data, "root/sub/c.md".data] =
      [] ++ dfs_entry (some ["md".data]) exampleTree :=
  list_files_dfs_append.1 [] exampleTree (some ["md".data])
    ["root/a.md".data, "root/sub/c.md".data]
    (by simp [exampleTree, list_files, list_dir, add_file, is_valid_extension, extension,
      file_name, splitOnChar, findChar])

/-- C4: `list_files` fails with `NotFound` on a nonexistent root, fails
with `NotADirectory` on a root that exists but is neither file nor
directory, and on a regular-file root succeeds with a single-element or
empty addition according to the Extension Filter. -/
theorem list_files_root_cases :
    (∀ (files : List (List Char)) (suffixes : Option (List (List Char))),
      list_files files none suffixes = .error .notFound) ∧
    (∀ (files : List (List Char)) (suffixes : Option (List (List Char))) (p : List Char),
      list_files files (some (.special p)) suffixes = .error (.notADirectory p)) ∧
    (∀ (files : List (List Char)) (suffixes : Option (List (List Char))) (p : List Char),
      list_files files (some (.file p)) suffixes =
        .ok (files ++ if is_valid_extension suffixes p then [p] else [])) := by
  refine ⟨fun _ _ => rfl, fun _ _ _ => rfl, fun files suffixes p => ?_⟩
  by_cases h : is_valid_extension suffixes p <;> simp [list_files, add_file, h]

/-- Inside a directory, a child that is neither file nor directory is
skipped without any effect on result or success. -/
theorem list_dir_skip_special (suffixes : Option (List (List Char))) (sp : List Char)
    (post : List Entry) :
    ∀ (pre : List Entry) (files : List (List Char)),
      list_dir suffixes files (pre ++ .special sp :: post) =
        list_dir suffixes files (pre ++ post) := by
  intro pre
  induction pre with
  | nil => intro files; simp [list_dir]
  | cons a pre ih =>
    intro files
    cases a with
    | file p => simp only [List.cons_append, list_dir]; exact ih _
    | dir q entries =>
      simp only [List.cons_append, list_dir]
      cases h : list_dir suffixes files entries with
      | ok f2 => exact ih f2
      | error e => rfl
    | special p => simp only [List.cons_append, list_dir]; exact ih _

/-- C10: an entry inside a directory that is neither a regular file nor a
directory is silently skipped — removing it changes nothing — even though
the same condition at the root is the fatal `NotADirectory` error. -/
theorem list_files_skips_special_children :
    (∀ (files : List (List Char)) (suffixes : Option (List (List Char)))
       (dp sp : List Char) (pre post : List Entry),
      list_files files (some (.dir dp (pre ++ .special sp :: post))) suffixes =
        list_files files (some (.dir dp (pre ++ post))) suffixes) ∧
    (∀ (files : List (List Char)) (suffixes : Option (List (List Char))) (sp : List Char),
      list_files files (some (.special sp)) suffixes = .error (.notADirectory sp)) := by
  refine ⟨fun files suffixes dp sp pre post => ?_, fun _ _ _ => rfl⟩
  simp only [list_files]
  exact list_dir_skip_special suffixes sp post pre files

/-- C5: the Extension Filter accepts unconditionally when the list is
absent or empty; when non-empty it accepts exactly the paths having an
extension component that is a member of the list, rejects every path
without an extension component, and matching is case-sensitive. -/
theorem is_valid_extension_spec :
    (∀ (path : List Char), is_valid_extension none path = true) ∧
    (∀ (path : List Char), is_valid_extension (some []) path = true) ∧
    (∀ (suffixes : List (List Char)) (path : List Char), suffixes ≠ [] →
      (is_valid_extension (some suffixes) path = true ↔
        ∃ ext, extension path = some ext ∧ ext ∈ suffixes)) ∧
    (∀ (suffixes : List (List Char)) (path : List Char), suffixes ≠ [] →
      extension path = none → is_valid_extension (some suffixes) path = false) ∧
    is_valid_extension (some ["md".data]) "a.MD".data = false := by
  refine ⟨fun _ => rfl, fun _ => rfl, ?_, ?_, by decide⟩
  · intro suffixes path h
    cases hext : extension path with
    | none => simp [is_valid_extension, h, hext]
    | some ext => simp [is_valid_extension, h, hext]
  · intro suffixes path h hext
    simp [is_valid_extension, h, hext]

/-- Witness for C5 at filter `md`: `root/a.md` is accepted via its `md`
extension and extensionless `root/b` is rejected. -/
theorem is_valid_extension_spec_witness :
    (is_valid_extension (some ["md".data]) "root/a.md".data = true ↔
      ∃ ext, extension "root/a.md".data = some ext ∧ ext ∈ ["md".data]) ∧
    is_valid_extension (some ["md".data]) "root/b".data = false :=
  ⟨is_valid_extension_spec.2.2.1 ["md".data] "root/a.md".data (by decide),
   is_valid_extension_spec.2.2.2.1 ["md".data] "root/b".data (by decide) (by decide)⟩

/-- A successful pandoc strategy returns exactly one document. -/
theorem load_with_pandoc_ok_length {env : Env} {path : List Char}
    {docs : List RagDocument} (h : load_with_pandoc env path = .ok docs) :
    docs.length = 1 := by
  rw [load_with_pandoc] at h
  by_cases hp : env.exist_pandoc
  · rw [if_neg (by simp [hp])] at h
    cases hr : run_external_tool env "pandoc".data ["--to".data, "plain".data, path] with
    | ok c =>
      rw [hr] at h
      obtain rfl := (Except.ok.inj h).symm
      rfl
    | error e => rw [hr] at h; simp at h
  · rw [if_pos (by simp [hp])] at h; simp at h

/-- A successful pdftotext strategy returns exactly one document. -/
theorem load_with_pdftotext_ok_length {env : Env} {path : List Char}
    {docs : List RagDocument} (h : load_with_pdftotext env path = .ok docs) :
    docs.length = 1 := by
  rw [load_with_pdftotext] at h
  by_cases hp : env.exist_pdftotext
  · rw [if_neg (by simp [hp])] at h
    cases hr : run_external_tool env "pdftotext".data [path, "-".data] with
    | ok c =>
      rw [hr] at h
      obtain rfl := (Except.ok.inj h).symm
      rfl
    | error e => rw [hr] at h; simp at h
  · rw [if_pos (by simp [hp])] at h; simp at h

/-- A successful plain read returns exactly one document. -/
theorem load_plain_ok_length {env : Env} {path : List Char}
    {docs : List RagDocument} (h : load_plain env path = .ok docs) :
    docs.length = 1 := by
  rw [load_plain] at h
  cases hr : env.read_to_string path with
  | ok c =>
    rw [hr] at h
    obtain rfl := (Except.ok.inj h).symm
    rfl
  | error e => rw [hr] at h; simp at h

/-- C6: `load` dispatches by exact, case-sensitive extension match —
`docx`/`epub` to pandoc, `pdf` to pdftotext, anything else to plain
reading; every successful strategy returns exactly one document, and for
a plain file the text of that document is exactly the content of the
file. -/
theorem load_dispatch_identity :
    (∀ (env : Env) (path ext : List Char),
      (ext = "docx".data ∨ ext = "epub".data → load env path ext = load_with_pandoc env path) ∧
      (ext = "pdf".data → load env path ext = load_with_pdftotext env path) ∧
      (ext ≠ "docx".data → ext ≠ "epub".data → ext ≠ "pdf".data →
        load env path ext = load_plain env path)) ∧
    (∀ (env : Env) (path ext : List Char) (docs : List RagDocument),
      load env path ext = .ok docs → docs.length = 1) ∧
    (∀ (env : Env) (path ext contents : List Char),
      ext ≠ "docx".data → ext ≠ "epub".data → ext ≠ "pdf".data →
      env.read_to_string path = .ok contents →
      load env path ext = .ok [RagDocument.new contents]) ∧
    (∀ contents : List Char, (RagDocument.new contents).page_content = contents) := by
  refine ⟨?_, ?_, ?_, fun _ => rfl⟩
  · intro env path ext
    refine ⟨fun h => by rw [load, if_pos h], fun h => ?_, fun h1 h2 h3 => ?_⟩
    · subst h
      rw [load, if_neg (by decide), if_pos rfl]
    · rw [load, if_neg (fun hh => hh.elim h1 h2), if_neg h3]
  · intro env path ext docs h
    rw [load] at h
    by_cases h1 : ext = "docx".data ∨ ext = "epub".data
    · rw [if_pos h1] at h
      exact load_with_pandoc_ok_length h
    · rw [if_neg h1] at h
      by_cases h2 : ext = "pdf".data
      · rw [if_pos h2] at h
        exact load_with_pdftotext_ok_length h
      · rw [if_neg h2] at h
        exact load_plain_ok_length h
  · intro env path ext contents h1 h2 h3 hread
    rw [load, if_neg (fun hh => hh.elim h1 h2), if_neg h3, load_plain, hread]

/-- Witness for C6: the content of a `.txt` file round-trips identically
into one document. -/
theorem load_dispatch_identity_witness :
    load envRunOk "a.txt".data "txt".data = .ok [RagDocument.new "hello".data] :=
  load_dispatch_identity.2.2.1 envRunOk "a.txt".data "txt".data "hello".data
    (by decide) (by decide) (by decide) rfl

/-- C7: `run_external_tool` succeeds exactly when the process exit status
is zero, returning the captured (lossily decoded) standard output; on
non-zero exit it fails with the captured standard error when non-empty
and otherwise with a generic non-zero-exit message that names the tool. -/
theorem run_external_tool_spec :
    ∀ (env : Env) (cmd : List Char) (args : List (List Char))
      (success : Bool) (stdout stderr : List Char),
      env.run_command_with_output cmd args = .ok (success, stdout, stderr) →
      (run_external_tool env cmd args = .ok stdout ↔ success = true) ∧
      (success = false →
        run_external_tool env cmd args =
          .error (if ¬ stderr.isEmpty then stderr else nonZeroExitMsg cmd)) ∧
      cmd <:+: nonZeroExitMsg cmd := by
  intro env cmd args success stdout stderr h
  refine ⟨?_, ?_, ⟨"`".data, "` exited with non-zero.".data, rfl⟩⟩
  · cases success with
    | true => simp [run_external_tool, h]
    | false =>
      simp only [run_external_tool, h]
      constructor
      · intro hh
        rw [if_neg (by simp)] at hh
        cases hh
      · intro hh
        cases hh
  · intro hs
    subst hs
    simp only [run_external_tool, h]
    rw [if_neg (by simp)]

/-- Witness for C7: a zero-exit run returning stdout `out`, and a
non-zero-exit run with stderr `boom`. -/
theorem run_external_tool_spec_witness :
    ((run_external_tool envRunOk "pdftotext".data [] = .ok "out".data ↔ (true : Bool) = true) ∧
      ((true : Bool) = false →
        run_external_tool envRunOk "pdftotext".data [] =
          .error (if ¬ (List.isEmpty ([] : List Char)) then []
            else nonZeroExitMsg "pdftotext".data)) ∧
      "pdftotext".data <:+: nonZeroExitMsg "pdftotext".data) ∧
    run_external_tool envRunFail "pandoc".data [] = .error "boom".data :=
  ⟨run_external_tool_spec envRunOk "pdftotext".data [] true "out".data [] rfl,
   by
    have h := (run_external_tool_spec envRunFail "pandoc".data [] false [] "boom".data rfl).2.1 rfl
    simpa using h⟩

/-- C8: when the required converter is unavailable, `load` fails with the
missing-dependency message (naming the tool, with an install hint), and
the result does not depend on the spawn function at all — no process is
run. -/
theorem load_missing_dependency :
    (∀ (env : Env) (path : List Char),
      env.exist_pdftotext = false →
      load env path "pdf".data = .error pdftotextMissingMsg ∧
      ∀ (f : List Char → List (List Char) → Except (List Char) (Bool × List Char × List Char)),
        load { env with run_command_with_output := f } path "pdf".data =
          .error pdftotextMissingMsg) ∧
    (∀ (env : Env) (path ext : List Char),
      ext = "docx".data ∨ ext = "epub".data →
      env.exist_pandoc = false →
      load env path ext = .error pandocMissingMsg ∧
      ∀ (f : List Char → List (List Char) → Except (List Char) (Bool × List Char × List Char)),
        load { env with run_command_with_output := f } path ext =
          .error pandocMissingMsg) ∧
    "pdftotext".data <:+: pdftotextMissingMsg ∧
    "pandoc".data <:+: pandocMissingMsg := by
  have hpdf : ∀ (env : Env) (path : List Char), env.exist_pdftotext = false →
      load env path "pdf".data = .error pdftotextMissingMsg := by
    intro env path h
    rw [load, if_neg (by decide), if_pos rfl, load_with_pdftotext, if_pos (by simp [h])]
  have hpan : ∀ (env : Env) (path ext : List Char),
      ext = "docx".data ∨ ext = "epub".data → env.exist_pandoc = false →
      load env path ext = .error pandocMissingMsg := by
    intro env path ext hext h
    rw [load, if_pos hext, load_with_pandoc, if_pos (by simp [h])]
  refine ⟨fun env path h => ⟨hpdf env path h, fun f => hpdf _ path h⟩,
    fun env path ext hext h => ⟨hpan env path ext hext h, fun f => hpan _ path ext hext h⟩,
    by decide, by decide⟩

/-- Witness for C8: with no tools installed, loading a `.pdf` and a
`.docx` file fail with the respective missing-dependency messages. -/
theorem load_missing_dependency_witness :
    load envNoTools "doc.pdf".data "pdf".data = .error pdftotextMissingMsg ∧
    load envNoTools "doc.docx".data "docx".data = .error pandocMissingMsg :=
  ⟨(load_missing_dependency.1 envNoTools "doc.pdf".data rfl).1,
   (load_missing_dependency.2.1 envNoTools "doc.docx".data "docx".data (Or.inl rfl) rfl).1⟩
